import Mathlib

/-!
Shallow embedding of `src/main/resources/postgres/delete_druid_segments_postgres.py`:
a maintenance script that deletes unused rows from the `druid_segments` table in
batches.  The store is modelled as a list of rows (`id`, `used`); the SQL issued by
the script is modelled by its semantics over that list:

* `SELECT id FROM druid_segments WHERE used = 'f' LIMIT {batch_size}` becomes
  `selectBatch` (the `datasource` argument is passed to the cursor by the script
  but does not occur in the query text, so the model takes and ignores it);
* `DELETE FROM druid_segments WHERE id = ANY(%s)` becomes `deleteByIds`.

The control loop `delete_in_batches` is embedded with explicit fuel (the Python
`while` loop has no a-priori bound: in dry-run mode it need not terminate), an
explicit failure schedule standing for the store raising an exception on a given
operation of a given iteration, and an explicit trace of the progress lines the
script prints.  `conn.commit()` after each batch and `conn.rollback()` in the
exception handler are modelled by keeping only the committed store in the state:
a batch's deletion reaches the store exactly when its commit succeeds.
-/

namespace DruidDelete

/-- A row of `druid_segments`, reduced to the columns the script touches:
the primary key `id` and the `used` flag. -/
structure Row where
  id : Nat
  used : Bool
deriving DecidableEq, Repr

abbrev Store := List Row

/-- The store operations a loop iteration performs, as failure points:
the `SELECT` (fetch), the `DELETE` statement, and the `COMMIT`. -/
inductive Op where
  | fetch
  | del
  | commit
deriving DecidableEq, Repr

/-- Python-level exceptions.  `storeError` stands for an exception raised by the
database driver.  `deletionError` does not occur anywhere in the source; it is
modelled from the spec, which claims failures are wrapped in a `DeletionError`,
so that the claim can be stated and compared with what the code raises. -/
inductive PyExc where
  | storeError (msg : String)
  | deletionError (inner : PyExc)
deriving DecidableEq, Repr

/-- The progress lines printed by `delete_in_batches`, one constructor per
`print` in the loop body (timestamps and wording abstracted away). -/
inductive Event where
  | foundBatch (n : Nat)
  | deletedBatch (n total : Nat)
  | dryRunBatch (n total : Nat)
  | noMoreRows (total : Nat)
  | batchError
deriving DecidableEq, Repr

/-- Outcome of a run: normal return of the total, an exception re-raised after
rollback, or fuel exhaustion (the Python loop still running). -/
inductive RunResult where
  | ok (total : Nat) (store : Store) (trace : List Event)
  | error (exc : PyExc) (total : Nat) (store : Store) (trace : List Event)
  | outOfFuel (total : Nat) (store : Store) (trace : List Event)
deriving DecidableEq, Repr

def RunResult.total : RunResult → Nat
  | .ok t _ _ => t
  | .error _ t _ _ => t
  | .outOfFuel t _ _ => t

def RunResult.store : RunResult → Store
  | .ok _ s _ => s
  | .error _ _ s _ => s
  | .outOfFuel _ s _ => s

def RunResult.trace : RunResult → List Event
  | .ok _ _ tr => tr
  | .error _ _ _ tr => tr
  | .outOfFuel _ _ tr => tr

def RunResult.exc : RunResult → Option PyExc
  | .error e _ _ _ => some e
  | _ => none

def RunResult.isOk : RunResult → Bool
  | .ok _ _ _ => true
  | _ => false

def RunResult.isOutOfFuel : RunResult → Bool
  | .outOfFuel _ _ _ => true
  | _ => false

/-- `WHERE used = 'f'`: a row is an eligible deletion candidate iff its `used`
flag is false. -/
def eligible (r : Row) : Bool := !r.used

/-- Number of eligible rows currently in the store. -/
def eligibleCount (s : Store) : Nat := (s.filter eligible).length

/-- `SELECT id FROM druid_segments WHERE used = 'f' LIMIT {batch_size}`.
The script passes `datasource` to `cursor.execute`, but the query text does not
mention it, so the result does not depend on it.  `LIMIT` without `ORDER BY`
returns some subset of at most `batch_size` matching rows; the model picks the
first ones in store order. -/
def selectBatch (datasource : String) (batch_size : Nat) (s : Store) : List Nat :=
  ((s.filter eligible).map Row.id).take batch_size

/-- `DELETE FROM druid_segments WHERE id = ANY(ids)`. -/
def deleteByIds (s : Store) (ids : List Nat) : Store :=
  s.filter fun r => !ids.contains r.id

/-- Failure schedule: `some (i, op, msg)` makes operation `op` of iteration `i`
(0-based) raise a store error with message `msg`; `none` is a failure-free run. -/
abbrev FailAt := Option (Nat × Op × String)

def failOn (failAt : FailAt) (iter : Nat) (op : Op) : Option String :=
  match failAt with
  | none => none
  | some (i, o, msg) => if i == iter && o == op then some msg else none

/-- The `while ShouldDelete` loop of `delete_in_batches`, one recursion step per
iteration.  State threaded through: the `ShouldDelete` flag, the committed
store, `total_deleted`, the iteration index (for the failure schedule) and the
printed trace.  On any store error the handler rolls back — pending deletions
are discarded, so the committed store is returned unchanged for that batch —
prints the error line, and re-raises the caught exception unchanged.
`sleep_time` only drives `time.sleep`, which has no effect on the state. -/
def loop (failAt : FailAt) (datasource : String) (batch_size : Nat)
    (dry_run : Bool) (sleep_time : Nat) :
    Nat → Bool → Store → Nat → Nat → List Event → RunResult
  | 0, _, store, total, _, trace => .outOfFuel total store trace
  | fuel + 1, shouldDelete, store, total, iter, trace =>
    if shouldDelete then
      match failOn failAt iter .fetch with
      | some msg => .error (.storeError msg) total store (trace ++ [.batchError])
      | none =>
        let rows := selectBatch datasource batch_size store
        if rows.isEmpty then
          .ok total store (trace ++ [.noMoreRows total])
        else
          let ids_to_delete := rows
          let batch_count := ids_to_delete.length
          let trace1 := trace ++ [.foundBatch batch_count]
          if !dry_run then
            match failOn failAt iter .del with
            | some msg => .error (.storeError msg) total store (trace1 ++ [.batchError])
            | none =>
              match failOn failAt iter .commit with
              | some msg => .error (.storeError msg) total store (trace1 ++ [.batchError])
              | none =>
                let store1 := deleteByIds store ids_to_delete
                let total1 := total + batch_count
                loop failAt datasource batch_size dry_run sleep_time fuel true
                  store1 total1 (iter + 1) (trace1 ++ [.deletedBatch batch_count total1])
          else
            let total1 := total + batch_count
            loop failAt datasource batch_size dry_run sleep_time fuel true
              store total1 (iter + 1) (trace1 ++ [.dryRunBatch batch_count total1])
    else
      .ok total store trace

/-- `delete_in_batches(conn, datasource, batch_size, dry_run, sleep_time)`:
the loop started with `ShouldDelete = True`, `total_deleted = 0`, nothing
printed yet. -/
def delete_in_batches (failAt : FailAt) (datasource : String) (batch_size : Nat)
    (dry_run : Bool) (sleep_time : Nat) (fuel : Nat) (store : Store) : RunResult :=
  loop failAt datasource batch_size dry_run sleep_time fuel true store 0 0 []

/-- The command-line arguments `main` parses (defaults as in the source). -/
structure Args where
  host : String
  port : Nat
  dbname : String
  user : String
  password : String
  datasource : String
  batch_size : Nat
  sleep : Nat
  dry_run : Bool
deriving DecidableEq, Repr

/-- `main` after argument parsing and connection: it calls
`delete_in_batches(conn, args.datasource, args.batch_size, False, args.sleep)`
— the fourth, positional `dry_run` argument is the literal `False`; the parsed
`args.dry_run` is never passed on. -/
def main_run (args : Args) (failAt : FailAt) (fuel : Nat) (store : Store) : RunResult :=
  delete_in_batches failAt args.datasource args.batch_size false args.sleep fuel store

/-- `ceil (n / b)` on naturals. -/
def ceilDiv (n b : Nat) : Nat := (n + b - 1) / b

/-- Number of committed deletion batches recorded in a trace. -/
def deleteBatchCount (tr : List Event) : Nat :=
  tr.countP fun e =>
    match e with
    | .deletedBatch _ _ => true
    | _ => false

/-- Sum of the sizes of the committed deletion batches recorded in a trace. -/
def sumDeleted (tr : List Event) : Nat :=
  (tr.map fun e =>
    match e with
    | .deletedBatch n _ => n
    | _ => 0).sum

/-- Whether a progress line reports the running tally `t`. -/
def reportsTally (t : Nat) : Event → Bool
  | .deletedBatch _ t1 => t1 == t
  | .dryRunBatch _ t1 => t1 == t
  | _ => false

/-- The batch size carried by a progress line, when it carries one. -/
def batchSizeOf : Event → Option Nat
  | .foundBatch n => some n
  | .deletedBatch n _ => some n
  | .dryRunBatch n _ => some n
  | _ => none

/-- Modelled from the spec: the refactor recommended by the design notes — the
same loop body as `loop` but as a plain loop with no `ShouldDelete` flag, whose
sole exit is the empty-batch break. -/
def plainLoop (failAt : FailAt) (datasource : String) (batch_size : Nat)
    (dry_run : Bool) (sleep_time : Nat) :
    Nat → Store → Nat → Nat → List Event → RunResult
  | 0, store, total, _, trace => .outOfFuel total store trace
  | fuel + 1, store, total, iter, trace =>
    match failOn failAt iter .fetch with
    | some msg => .error (.storeError msg) total store (trace ++ [.batchError])
    | none =>
      let rows := selectBatch datasource batch_size store
      if rows.isEmpty then
        .ok total store (trace ++ [.noMoreRows total])
      else
        let batch_count := rows.length
        let trace1 := trace ++ [.foundBatch batch_count]
        if !dry_run then
          match failOn failAt iter .del with
          | some msg => .error (.storeError msg) total store (trace1 ++ [.batchError])
          | none =>
            match failOn failAt iter .commit with
            | some msg => .error (.storeError msg) total store (trace1 ++ [.batchError])
            | none =>
              let store1 := deleteByIds store rows
              let total1 := total + batch_count
              plainLoop failAt datasource batch_size dry_run sleep_time fuel
                store1 total1 (iter + 1) (trace1 ++ [.deletedBatch batch_count total1])
        else
          let total1 := total + batch_count
          plainLoop failAt datasource batch_size dry_run sleep_time fuel
            store total1 (iter + 1) (trace1 ++ [.dryRunBatch batch_count total1])

/-! ### Helper lemmas about selection and deletion -/

lemma failOn_none (iter : Nat) (op : Op) : failOn none iter op = none := rfl

lemma length_selectBatch (ds : String) (B : Nat) (s : Store) :
    (selectBatch ds B s).length = min B (eligibleCount s) := by
  simp [selectBatch, eligibleCount, List.length_take]

lemma selectBatch_isEmpty_of_eligibleCount_zero (ds : String) (B : Nat) (s : Store)
    (h : eligibleCount s = 0) : (selectBatch ds B s).isEmpty = true := by
  have hlen : (selectBatch ds B s).length = 0 := by
    rw [length_selectBatch, h]; omega
  simpa [List.isEmpty_iff, List.length_eq_zero] using hlen

lemma selectBatch_isEmpty_eq_false (ds : String) (B : Nat) (s : Store)
    (hB : 0 < B) (hE : 0 < eligibleCount s) : (selectBatch ds B s).isEmpty = false := by
  have hlen : 0 < (selectBatch ds B s).length := by
    rw [length_selectBatch]; omega
  cases hemp : (selectBatch ds B s).isEmpty
  · rfl
  · rw [List.isEmpty_iff] at hemp
    rw [hemp] at hlen
    simp at hlen

lemma eligibleCount_zero_of_isEmpty (ds : String) (B : Nat) (s : Store)
    (hB : 0 < B) (h : (selectBatch ds B s).isEmpty = true) : eligibleCount s = 0 := by
  by_contra hE
  rw [selectBatch_isEmpty_eq_false ds B s hB (Nat.pos_of_ne_zero hE)] at h
  cases h

lemma all_used_of_eligibleCount_zero (s : Store) (h : eligibleCount s = 0) :
    s.filter (fun r => r.used) = s := by
  rw [List.filter_eq_self]
  intro r hr
  by_contra hu
  have helig : eligible r = true := by
    simp [eligible]
    cases hru : r.used
    · rfl
    · exact absurd hru hu
  have : r ∈ s.filter eligible := List.mem_filter.mpr ⟨hr, helig⟩
  have := List.length_pos_of_mem this
  unfold eligibleCount at h
  omega

/-- Core counting argument: when the mapped keys of `F` are distinct, removing
from `F` exactly the elements whose key occurs among the first `k` keys leaves
`F.drop k`. -/
lemma filter_not_mem_take {α β : Type} [DecidableEq β] (f : α → β) :
    ∀ (F : List α) (k : Nat), (F.map f).Nodup →
      (F.filter fun r => !((F.map f).take k).contains (f r)) = F.drop k := by
  intro F
  induction F with
  | nil => intro k _; simp
  | cons a F ih =>
    intro k hnd
    have hnd2 : (f a ∉ F.map f) ∧ (F.map f).Nodup := by
      simpa [List.nodup_cons] using hnd
    cases k with
    | zero => simp
    | succ k =>
      simp only [List.map_cons, List.take_succ_cons, List.drop_succ_cons]
      rw [List.filter_cons]
      have ha : ((f a :: (F.map f).take k).contains (f a)) = true := by simp
      rw [ha]
      simp only [Bool.not_true, Bool.false_eq_true, if_false]
      have hcong : ∀ r ∈ F,
          (!((f a :: (F.map f).take k).contains (f r)))
            = (!(((F.map f).take k).contains (f r))) := by
        intro r hr
        have hne : (f r == f a) = false := by
          rw [beq_eq_false_iff_ne]
          intro hEq
          exact hnd2.1 (hEq ▸ List.mem_map_of_mem f hr)
        rw [List.contains_cons, hne, Bool.false_or]
      rw [List.filter_congr hcong, ih k hnd2.2]

lemma nodup_map_filter (s : Store) (p : Row → Bool) (hnd : (s.map Row.id).Nodup) :
    ((s.filter p).map Row.id).Nodup :=
  List.Nodup.sublist ((List.filter_sublist s).map Row.id) hnd

lemma eligible_filter_deleteByIds (ds : String) (B : Nat) (s : Store)
    (hnd : (s.map Row.id).Nodup) :
    (deleteByIds s (selectBatch ds B s)).filter eligible = (s.filter eligible).drop B := by
  have h1 : (deleteByIds s (selectBatch ds B s)).filter eligible
      = (s.filter eligible).filter fun r => !(selectBatch ds B s).contains r.id := by
    unfold deleteByIds
    rw [List.filter_filter, List.filter_filter]
    apply List.filter_congr
    intro r _
    rw [Bool.and_comm]
  rw [h1]
  exact filter_not_mem_take Row.id (s.filter eligible) B (nodup_map_filter s eligible hnd)

lemma eligibleCount_deleteByIds (ds : String) (B : Nat) (s : Store)
    (hnd : (s.map Row.id).Nodup) :
    eligibleCount (deleteByIds s (selectBatch ds B s)) = eligibleCount s - B := by
  unfold eligibleCount
  rw [eligible_filter_deleteByIds ds B s hnd, List.length_drop]

lemma nodup_deleteByIds (s : Store) (ids : List Nat) (hnd : (s.map Row.id).Nodup) :
    ((deleteByIds s ids).map Row.id).Nodup :=
  nodup_map_filter s _ hnd

lemma mem_selectBatch_not_used (ds : String) (B : Nat) (s : Store)
    (hnd : (s.map Row.id).Nodup) (r : Row) (hr : r ∈ s) (hu : r.used = true) :
    (selectBatch ds B s).contains r.id = false := by
  cases hc : (selectBatch ds B s).contains r.id
  · rfl
  · exfalso
    have hmem : r.id ∈ selectBatch ds B s := by
      simpa using hc
    have hmem2 : r.id ∈ (s.filter eligible).map Row.id :=
      (List.take_sublist B _).subset hmem
    obtain ⟨r2, hr2, hid⟩ := List.mem_map.mp hmem2
    obtain ⟨hr2s, helig⟩ := List.mem_filter.mp hr2
    have : r2 = r := List.inj_on_of_nodup_map hnd hr2s hr hid
    rw [this] at helig
    simp [eligible, hu] at helig

lemma used_filter_deleteByIds (ds : String) (B : Nat) (s : Store)
    (hnd : (s.map Row.id).Nodup) :
    (deleteByIds s (selectBatch ds B s)).filter (fun r => r.used)
      = s.filter (fun r => r.used) := by
  unfold deleteByIds
  rw [List.filter_filter]
  apply List.filter_congr
  intro r hr
  cases hu : r.used
  · simp
  · rw [mem_selectBatch_not_used ds B s hnd r hr hu]
    rfl

lemma length_filter_used_add (s : Store) :
    (s.filter fun r => r.used).length + eligibleCount s = s.length := by
  unfold eligibleCount
  induction s with
  | nil => rfl
  | cons r s ih =>
    cases hu : r.used <;>
      simp [List.filter_cons, hu, eligible] at ih ⊢ <;> omega

lemma eligibleCount_filter_used (s : Store) :
    eligibleCount (s.filter fun r => r.used) = 0 := by
  unfold eligibleCount
  rw [List.filter_filter]
  have : (s.filter fun r => eligible r && r.used) = s.filter fun _ => false := by
    apply List.filter_congr
    intro r _
    cases hu : r.used <;> simp [eligible, hu]
  rw [this]
  simp

/-! ### Arithmetic lemmas about `ceilDiv` -/

lemma ceilDiv_zero_left (B : Nat) : ceilDiv 0 B = 0 := by
  unfold ceilDiv
  cases B with
  | zero => rfl
  | succ b => exact Nat.div_eq_of_lt (by omega)

lemma ceilDiv_pos (B E : Nat) (hB : 0 < B) (hE : 0 < E) : 0 < ceilDiv E B := by
  unfold ceilDiv
  have h1 : 1 ≤ (E + B - 1) / B := by
    rw [Nat.le_div_iff_mul_le hB]
    omega
  omega

lemma ceilDiv_sub (B E : Nat) (hB : 0 < B) (hE : 0 < E) :
    ceilDiv (E - B) B = ceilDiv E B - 1 := by
  unfold ceilDiv
  rcases le_or_lt E B with h | h
  · have h1 : E - B = 0 := by omega
    rw [h1]
    have h2 : (0 + B - 1) / B = 0 := Nat.div_eq_of_lt (by omega)
    have h3 : (E + B - 1) / B = 1 := by
      apply Nat.div_eq_of_lt_le <;> omega
    omega
  · have h1 : E - B + B - 1 = E - 1 := by omega
    have h2 : E + B - 1 = (E - 1) + B := by omega
    rw [h1, h2, Nat.add_div_right _ hB]
    simp

/-! ### Trace bookkeeping lemmas -/

lemma deleteBatchCount_append (tr1 tr2 : List Event) :
    deleteBatchCount (tr1 ++ tr2) = deleteBatchCount tr1 + deleteBatchCount tr2 :=
  List.countP_append _ tr1 tr2

lemma deleteBatchCount_noMoreRows (t : Nat) :
    deleteBatchCount [Event.noMoreRows t] = 0 := rfl

lemma deleteBatchCount_foundBatch (n : Nat) :
    deleteBatchCount [Event.foundBatch n] = 0 := rfl

lemma deleteBatchCount_deletedBatch (n t : Nat) :
    deleteBatchCount [Event.deletedBatch n t] = 1 := rfl

/-! ### The failure-free, non-dry run exhausts the eligible rows -/

lemma loop_exhaust (ds : String) (B sl : Nat) (hB : 0 < B) :
    ∀ (fuel : Nat) (store : Store) (total iter : Nat) (trace : List Event),
      (store.map Row.id).Nodup →
      ceilDiv (eligibleCount store) B < fuel →
      ∃ tr, loop none ds B false sl fuel true store total iter trace
          = .ok (total + eligibleCount store) (store.filter fun r => r.used) tr ∧
        deleteBatchCount tr = deleteBatchCount trace + ceilDiv (eligibleCount store) B := by
  intro fuel
  induction fuel with
  | zero => intro store total iter trace hnd hfuel; omega
  | succ f ih =>
    intro store total iter trace hnd hfuel
    by_cases hE : eligibleCount store = 0
    · have hrows : (selectBatch ds B store).isEmpty = true :=
        selectBatch_isEmpty_of_eligibleCount_zero ds B store hE
      refine ⟨trace ++ [.noMoreRows total], ?_, ?_⟩
      · simp only [loop, failOn_none, hrows, if_true]
        rw [hE, Nat.add_zero, all_used_of_eligibleCount_zero store hE]
      · rw [hE, ceilDiv_zero_left, deleteBatchCount_append, deleteBatchCount_noMoreRows]
    · have hEpos : 0 < eligibleCount store := Nat.pos_of_ne_zero hE
      have hrows : (selectBatch ds B store).isEmpty = false :=
        selectBatch_isEmpty_eq_false ds B store hB hEpos
      have hnd1 : ((deleteByIds store (selectBatch ds B store)).map Row.id).Nodup :=
        nodup_deleteByIds store _ hnd
      have hE1 : eligibleCount (deleteByIds store (selectBatch ds B store))
          = eligibleCount store - B := eligibleCount_deleteByIds ds B store hnd
      have hceil : ceilDiv (eligibleCount (deleteByIds store (selectBatch ds B store))) B
          = ceilDiv (eligibleCount store) B - 1 := by
        rw [hE1]; exact ceilDiv_sub B _ hB hEpos
      have hceilpos : 0 < ceilDiv (eligibleCount store) B := ceilDiv_pos B _ hB hEpos
      have hfuel1 :
          ceilDiv (eligibleCount (deleteByIds store (selectBatch ds B store))) B < f := by
        omega
      obtain ⟨tr, heq, hcnt⟩ :=
        ih (deleteByIds store (selectBatch ds B store))
          (total + (selectBatch ds B store).length) (iter + 1)
          ((trace ++ [.foundBatch (selectBatch ds B store).length])
            ++ [.deletedBatch (selectBatch ds B store).length
                  (total + (selectBatch ds B store).length)]) hnd1 hfuel1
      have hstep : loop none ds B false sl (f + 1) true store total iter trace
          = loop none ds B false sl f true (deleteByIds store (selectBatch ds B store))
              (total + (selectBatch ds B store).length) (iter + 1)
              ((trace ++ [.foundBatch (selectBatch ds B store).length])
                ++ [.deletedBatch (selectBatch ds B store).length
                      (total + (selectBatch ds B store).length)]) := by
        simp only [loop, failOn_none, hrows, Bool.not_false, if_true, Bool.false_eq_true,
          if_false]
      have hmin : (selectBatch ds B store).length = min B (eligibleCount store) :=
        length_selectBatch ds B store
      refine ⟨tr, ?_, ?_⟩
      · rw [hstep, heq, used_filter_deleteByIds ds B store hnd]
        have htot : total + (selectBatch ds B store).length
            + eligibleCount (deleteByIds store (selectBatch ds B store))
            = total + eligibleCount store := by
          rw [hE1]; omega
        rw [htot]
      · rw [hcnt, deleteBatchCount_append, deleteBatchCount_append,
          deleteBatchCount_foundBatch, deleteBatchCount_deletedBatch, hceil]
        omega

/-! ### Claim theorems -/

/-- C1: For every initial eligible-row count `N = eligibleCount store` (rows
with `used = false`) and every positive batch size `B`, running
`delete_in_batches` with dry-run off on a failure-free store (with distinct
primary keys and enough fuel) deletes exactly `N` rows, performs
`ceil(N / B)` deletion batches, returns a total of `N`, and leaves zero
eligible rows in the store. -/
theorem C1_exhaustion (ds : String) (B sl fuel : Nat) (store : Store)
    (hB : 0 < B) (hnd : (store.map Row.id).Nodup)
    (hfuel : ceilDiv (eligibleCount store) B < fuel) :
    (delete_in_batches none ds B false sl fuel store).isOk = true ∧
    (delete_in_batches none ds B false sl fuel store).total = eligibleCount store ∧
    deleteBatchCount (delete_in_batches none ds B false sl fuel store).trace
      = ceilDiv (eligibleCount store) B ∧
    eligibleCount (delete_in_batches none ds B false sl fuel store).store = 0 ∧
    (delete_in_batches none ds B false sl fuel store).store.length + eligibleCount store
      = store.length := by
  obtain ⟨tr, heq, hcnt⟩ := loop_exhaust ds B sl hB fuel store 0 0 [] hnd hfuel
  have hrun : delete_in_batches none ds B false sl fuel store
      = .ok (0 + eligibleCount store) (store.filter fun r => r.used) tr := heq
  rw [hrun]
  refine ⟨rfl, by simp [RunResult.total], ?_, ?_, ?_⟩
  · have h0 : deleteBatchCount ([] : List Event) = 0 := rfl
    show deleteBatchCount tr = ceilDiv (eligibleCount store) B
    omega
  · exact eligibleCount_filter_used store
  · exact length_filter_used_add store

theorem C1_exhaustion_witness :
    (delete_in_batches none "ds" 2 false 0 3 [⟨1, false⟩, ⟨2, false⟩, ⟨3, true⟩]).isOk
        = true ∧
    (delete_in_batches none "ds" 2 false 0 3 [⟨1, false⟩, ⟨2, false⟩, ⟨3, true⟩]).total
        = eligibleCount [⟨1, false⟩, ⟨2, false⟩, ⟨3, true⟩] ∧
    deleteBatchCount (delete_in_batches none "ds" 2 false 0 3
        [⟨1, false⟩, ⟨2, false⟩, ⟨3, true⟩]).trace
      = ceilDiv (eligibleCount [⟨1, false⟩, ⟨2, false⟩, ⟨3, true⟩]) 2 ∧
    eligibleCount (delete_in_batches none "ds" 2 false 0 3
        [⟨1, false⟩, ⟨2, false⟩, ⟨3, true⟩]).store = 0 ∧
    (delete_in_batches none "ds" 2 false 0 3
        [⟨1, false⟩, ⟨2, false⟩, ⟨3, true⟩]).store.length
        + eligibleCount [⟨1, false⟩, ⟨2, false⟩, ⟨3, true⟩]
      = ([⟨1, false⟩, ⟨2, false⟩, ⟨3, true⟩] : Store).length :=
  C1_exhaustion "ds" 2 0 3 [⟨1, false⟩, ⟨2, false⟩, ⟨3, true⟩]
    (by decide) (by decide) (by decide)

/-- C6: With dry-run off, positive batch size and no concurrent inserts (the
store only changes through the loop's own deletions), the loop terminates
within `ceil(N / B)` deletion iterations: fuel for `ceil(N / B) + 1` loop
entries (the final one only performs the empty fetch that breaks) suffices
for a normal return, and the number of deletion batches performed is bounded
by `ceil(N / B)`. -/
theorem C6_termination (ds : String) (B sl : Nat) (store : Store)
    (hB : 0 < B) (hnd : (store.map Row.id).Nodup) :
    (delete_in_batches none ds B false sl
        (ceilDiv (eligibleCount store) B + 1) store).isOk = true ∧
    deleteBatchCount (delete_in_batches none ds B false sl
        (ceilDiv (eligibleCount store) B + 1) store).trace
      ≤ ceilDiv (eligibleCount store) B := by
  obtain ⟨tr, heq, hcnt⟩ := loop_exhaust ds B sl hB
    (ceilDiv (eligibleCount store) B + 1) store 0 0 [] hnd (by omega)
  have hrun : delete_in_batches none ds B false sl
      (ceilDiv (eligibleCount store) B + 1) store
      = .ok (0 + eligibleCount store) (store.filter fun r => r.used) tr := heq
  rw [hrun]
  refine ⟨rfl, ?_⟩
  have h0 : deleteBatchCount ([] : List Event) = 0 := rfl
  show deleteBatchCount tr ≤ ceilDiv (eligibleCount store) B
  omega

theorem C6_termination_witness :
    (delete_in_batches none "ds" 2 false 0
        (ceilDiv (eligibleCount [⟨1, false⟩, ⟨2, false⟩, ⟨3, false⟩]) 2 + 1)
        [⟨1, false⟩, ⟨2, false⟩, ⟨3, false⟩]).isOk = true ∧
    deleteBatchCount (delete_in_batches none "ds" 2 false 0
        (ceilDiv (eligibleCount [⟨1, false⟩, ⟨2, false⟩, ⟨3, false⟩]) 2 + 1)
        [⟨1, false⟩, ⟨2, false⟩, ⟨3, false⟩]).trace
      ≤ ceilDiv (eligibleCount [⟨1, false⟩, ⟨2, false⟩, ⟨3, false⟩]) 2 :=
  C6_termination "ds" 2 0 [⟨1, false⟩, ⟨2, false⟩, ⟨3, false⟩] (by decide) (by decide)

/-! ### Dry-run never exits on a non-empty eligible set -/

lemma loop_dry_no_exit (ds : String) (B sl : Nat) (hB : 0 < B) :
    ∀ (fuel : Nat) (store : Store) (total iter : Nat) (trace : List Event),
      0 < eligibleCount store →
      (loop none ds B true sl fuel true store total iter trace).isOutOfFuel = true ∧
      (loop none ds B true sl fuel true store total iter trace).store = store := by
  intro fuel
  induction fuel with
  | zero => intro store total iter trace hE; exact ⟨rfl, rfl⟩
  | succ f ih =>
    intro store total iter trace hE
    have hrows : (selectBatch ds B store).isEmpty = false :=
      selectBatch_isEmpty_eq_false ds B store hB hE
    have hstep : loop none ds B true sl (f + 1) true store total iter trace
        = loop none ds B true sl f true store (total + (selectBatch ds B store).length)
            (iter + 1)
            ((trace ++ [.foundBatch (selectBatch ds B store).length])
              ++ [.dryRunBatch (selectBatch ds B store).length
                    (total + (selectBatch ds B store).length)]) := by
      simp only [loop, failOn_none, hrows, Bool.not_true, if_true, Bool.false_eq_true,
        if_false]
    rw [hstep]
    exact ih store _ (iter + 1) _ hE

/-- C7: With `dry_run` on, a positive batch size and a non-empty eligible set
that nothing external mutates (failure-free store; dry-run itself deletes
nothing), the loop never terminates: for every fuel bound it is still
running, because each iteration re-selects rows from the same unchanged
eligible set and the empty-batch exit is never reached; the store is
unchanged throughout. -/
theorem C7_dry_run_no_termination (ds : String) (B sl fuel : Nat) (store : Store)
    (hB : 0 < B) (hE : 0 < eligibleCount store) :
    (delete_in_batches none ds B true sl fuel store).isOutOfFuel = true ∧
    (delete_in_batches none ds B true sl fuel store).store = store :=
  loop_dry_no_exit ds B sl hB fuel store 0 0 [] hE

theorem C7_dry_run_no_termination_witness :
    (delete_in_batches none "ds" 2 true 0 5 [⟨1, false⟩]).isOutOfFuel = true ∧
    (delete_in_batches none "ds" 2 true 0 5 [⟨1, false⟩]).store = [⟨1, false⟩] :=
  C7_dry_run_no_termination "ds" 2 0 5 [⟨1, false⟩] (by decide) (by decide)

/-- The parsed arguments of an invocation with `--dry-run` given on the
command line (connection strings shortened; the rest as the source defaults). -/
def argsC2 : Args :=
  { host := "localhost", port := 5432, dbname := "druid", user := "u", password := "p",
    datasource := "ds", batch_size := 1000, sleep := 0, dry_run := true }

/-- C2 (code bug): an invocation with the dry-run toggle enabled on the
command line still deletes rows.  `main` parses `--dry-run` (help text: run
without actually deleting data) but passes the literal `False` as the
`dry_run` argument of `delete_in_batches`, so on a store with one eligible
row the run deletes it — the eligible count drops from 1 to 0 — contrary to
the claim and to the script's own help text. -/
theorem C2_dry_run_flag_dropped :
    argsC2.dry_run = true ∧
    eligibleCount [⟨1, false⟩] = 1 ∧
    main_run argsC2 none 2 [⟨1, false⟩]
      = .ok 1 [] [Event.foundBatch 1, Event.deletedBatch 1 1, Event.noMoreRows 1] ∧
    eligibleCount (main_run argsC2 none 2 [⟨1, false⟩]).store = 0 := by
  refine ⟨rfl, rfl, ?_, ?_⟩ <;> rfl

/-- C10: Calling `delete_in_batches` with `batch_size = 0` terminates
immediately: the one selection (`LIMIT 0`) returns an empty batch, the loop
breaks, the total returned is 0 and no row is deleted.  The positive
batch-size precondition is never validated: `main` forwards the parsed value
unchecked, no configuration error exists in the code, and the run ends
normally rather than with an error. -/
theorem C10_zero_batch_size (ds : String) (dry : Bool) (sl fuel : Nat)
    (store : Store) (args : Args) (hargs : args.batch_size = 0) :
    delete_in_batches none ds 0 dry sl (fuel + 1) store
      = .ok 0 store [Event.noMoreRows 0] ∧
    main_run args none (fuel + 1) store = .ok 0 store [Event.noMoreRows 0] := by
  have h : ∀ (ds2 : String) (dry2 : Bool) (sl2 : Nat),
      delete_in_batches none ds2 0 dry2 sl2 (fuel + 1) store
        = .ok 0 store [Event.noMoreRows 0] := by
    intro ds2 dry2 sl2
    show loop none ds2 0 dry2 sl2 (fuel + 1) true store 0 0 [] = _
    have hsel : selectBatch ds2 0 store = [] := by simp [selectBatch]
    simp [loop, failOn_none, hsel]
  refine ⟨h ds dry sl, ?_⟩
  show delete_in_batches none args.datasource args.batch_size false args.sleep
      (fuel + 1) store = _
  rw [hargs]
  exact h args.datasource false args.sleep

/-- Arguments of an invocation run with `--batch-size 0`. -/
def argsC10 : Args :=
  { host := "h", port := 5432, dbname := "d", user := "u", password := "p",
    datasource := "ds", batch_size := 0, sleep := 0, dry_run := false }

theorem C10_zero_batch_size_witness :
    delete_in_batches none "ds" 0 false 0 (3 + 1) [⟨1, false⟩]
      = .ok 0 [⟨1, false⟩] [Event.noMoreRows 0] ∧
    main_run argsC10 none (3 + 1) [⟨1, false⟩]
      = .ok 0 [⟨1, false⟩] [Event.noMoreRows 0] :=
  C10_zero_batch_size "ds" false 0 3 [⟨1, false⟩] argsC10 (by decide)

/-! ### Accounting: the committed store always reflects exactly the tally -/

lemma sumDeleted_append (tr1 tr2 : List Event) :
    sumDeleted (tr1 ++ tr2) = sumDeleted tr1 + sumDeleted tr2 := by
  simp [sumDeleted]

lemma sumDeleted_batchError : sumDeleted [Event.batchError] = 0 := rfl

lemma sumDeleted_noMoreRows (t : Nat) : sumDeleted [Event.noMoreRows t] = 0 := rfl

lemma sumDeleted_foundBatch (n : Nat) : sumDeleted [Event.foundBatch n] = 0 := rfl

lemma sumDeleted_deletedBatch (n t : Nat) :
    sumDeleted [Event.deletedBatch n t] = n := by
  simp [sumDeleted]

lemma deleteByIds_sublist (s : Store) (ids : List Nat) :
    (deleteByIds s ids).Sublist s := List.filter_sublist s

lemma loop_account (failAt : FailAt) (ds : String) (B sl : Nat) :
    ∀ (fuel : Nat) (sd : Bool) (store : Store) (total iter : Nat) (trace : List Event),
      (store.map Row.id).Nodup →
      eligibleCount (loop failAt ds B false sl fuel sd store total iter trace).store
          + (loop failAt ds B false sl fuel sd store total iter trace).total
        = eligibleCount store + total ∧
      sumDeleted (loop failAt ds B false sl fuel sd store total iter trace).trace + total
        = sumDeleted trace
          + (loop failAt ds B false sl fuel sd store total iter trace).total ∧
      (loop failAt ds B false sl fuel sd store total iter trace).store.Sublist store := by
  intro fuel
  induction fuel with
  | zero =>
    intro sd store total iter trace _
    exact ⟨rfl, rfl, List.Sublist.refl store⟩
  | succ f ih =>
    intro sd store total iter trace hnd
    cases sd with
    | false =>
      have hres : loop failAt ds B false sl (f + 1) false store total iter trace
          = .ok total store trace := by
        simp [loop]
      rw [hres]
      exact ⟨rfl, rfl, List.Sublist.refl store⟩
    | true =>
      cases hf : failOn failAt iter Op.fetch with
      | some msg =>
        have hres : loop failAt ds B false sl (f + 1) true store total iter trace
            = .error (.storeError msg) total store (trace ++ [Event.batchError]) := by
          simp only [loop, hf, if_true]
        rw [hres]
        refine ⟨rfl, ?_, List.Sublist.refl store⟩
        show sumDeleted (trace ++ [Event.batchError]) + total = sumDeleted trace + total
        rw [sumDeleted_append, sumDeleted_batchError]
        omega
      | none =>
        cases hrows : (selectBatch ds B store).isEmpty with
        | true =>
          have hres : loop failAt ds B false sl (f + 1) true store total iter trace
              = .ok total store (trace ++ [Event.noMoreRows total]) := by
            simp only [loop, hf, hrows, if_true]
          rw [hres]
          refine ⟨rfl, ?_, List.Sublist.refl store⟩
          show sumDeleted (trace ++ [Event.noMoreRows total]) + total
              = sumDeleted trace + total
          rw [sumDeleted_append, sumDeleted_noMoreRows]
          omega
        | false =>
          cases hd : failOn failAt iter Op.del with
          | some msg =>
            have hres : loop failAt ds B false sl (f + 1) true store total iter trace
                = .error (.storeError msg) total store
                    ((trace ++ [Event.foundBatch (selectBatch ds B store).length])
                      ++ [Event.batchError]) := by
              simp only [loop, hf, hrows, hd, Bool.not_false, if_true,
                Bool.false_eq_true, if_false]
            rw [hres]
            refine ⟨rfl, ?_, List.Sublist.refl store⟩
            show sumDeleted ((trace ++ [Event.foundBatch (selectBatch ds B store).length])
                ++ [Event.batchError]) + total = sumDeleted trace + total
            rw [sumDeleted_append, sumDeleted_append, sumDeleted_batchError,
              sumDeleted_foundBatch]
            omega
          | none =>
            cases hc : failOn failAt iter Op.commit with
            | some msg =>
              have hres : loop failAt ds B false sl (f + 1) true store total iter trace
                  = .error (.storeError msg) total store
                      ((trace ++ [Event.foundBatch (selectBatch ds B store).length])
                        ++ [Event.batchError]) := by
                simp only [loop, hf, hrows, hd, hc, Bool.not_false, if_true,
                  Bool.false_eq_true, if_false]
              rw [hres]
              refine ⟨rfl, ?_, List.Sublist.refl store⟩
              show sumDeleted ((trace ++ [Event.foundBatch (selectBatch ds B store).length])
                  ++ [Event.batchError]) + total = sumDeleted trace + total
              rw [sumDeleted_append, sumDeleted_append, sumDeleted_batchError,
                sumDeleted_foundBatch]
              omega
            | none =>
              have hres : loop failAt ds B false sl (f + 1) true store total iter trace
                  = loop failAt ds B false sl f true
                      (deleteByIds store (selectBatch ds B store))
                      (total + (selectBatch ds B store).length) (iter + 1)
                      ((trace ++ [Event.foundBatch (selectBatch ds B store).length])
                        ++ [Event.deletedBatch (selectBatch ds B store).length
                              (total + (selectBatch ds B store).length)]) := by
                simp only [loop, hf, hrows, hd, hc, Bool.not_false, if_true,
                  Bool.false_eq_true, if_false]
              rw [hres]
              have hnd1 : ((deleteByIds store (selectBatch ds B store)).map Row.id).Nodup :=
                nodup_deleteByIds store _ hnd
              obtain ⟨ih1, ih2, ih3⟩ := ih true (deleteByIds store (selectBatch ds B store))
                (total + (selectBatch ds B store).length) (iter + 1)
                ((trace ++ [Event.foundBatch (selectBatch ds B store).length])
                  ++ [Event.deletedBatch (selectBatch ds B store).length
                        (total + (selectBatch ds B store).length)]) hnd1
              have hE1 : eligibleCount (deleteByIds store (selectBatch ds B store))
                  = eligibleCount store - B := eligibleCount_deleteByIds ds B store hnd
              have hmin : (selectBatch ds B store).length = min B (eligibleCount store) :=
                length_selectBatch ds B store
              refine ⟨?_, ?_, ih3.trans (deleteByIds_sublist store _)⟩
              · omega
              · rw [sumDeleted_append, sumDeleted_append, sumDeleted_foundBatch,
                  sumDeleted_deletedBatch] at ih2
                omega

/-- C4: If the delete or the commit of a batch fails (any failure schedule
hitting a non-dry run), the in-flight transaction is rolled back, so the
store loses no partial batch: the number of eligible rows decreases exactly
by the total — which equals the sum of the sizes of the whole batches whose
commits succeeded before the failure, as recorded in the progress trace —
and the final store is a sublist of the initial one (previously committed
deletions stand, nothing reappears). -/
theorem C4_atomic_batches (failAt : FailAt) (ds : String) (B sl fuel : Nat)
    (store : Store) (exc : PyExc) (T : Nat) (st : Store) (tr : List Event)
    (hnd : (store.map Row.id).Nodup)
    (h : delete_in_batches failAt ds B false sl fuel store = .error exc T st tr) :
    eligibleCount st + T = eligibleCount store ∧
    T = sumDeleted tr ∧
    st.Sublist store := by
  obtain ⟨h1, h2, h3⟩ := loop_account failAt ds B sl fuel true store 0 0 [] hnd
  rw [show (delete_in_batches failAt ds B false sl fuel store : RunResult)
      = loop failAt ds B false sl fuel true store 0 0 [] from rfl] at h
  rw [h] at h1 h2 h3
  refine ⟨?_, ?_, h3⟩
  · simpa using h1
  · have h0 : sumDeleted ([] : List Event) = 0 := rfl
    have h2b : sumDeleted tr + 0 = sumDeleted [] + T := h2
    omega

theorem C4_atomic_batches_witness :
    (delete_in_batches (some (1, Op.commit, "crash")) "ds" 1 false 0 9
        [⟨5, false⟩, ⟨6, false⟩, ⟨7, true⟩]
      = .error (PyExc.storeError "crash") 1 [⟨6, false⟩, ⟨7, true⟩]
          [Event.foundBatch 1, Event.deletedBatch 1 1, Event.foundBatch 1,
            Event.batchError]) ∧
    (eligibleCount [⟨6, false⟩, ⟨7, true⟩] + 1
        = eligibleCount [⟨5, false⟩, ⟨6, false⟩, ⟨7, true⟩] ∧
      1 = sumDeleted [Event.foundBatch 1, Event.deletedBatch 1 1, Event.foundBatch 1,
            Event.batchError] ∧
      ([⟨6, false⟩, ⟨7, true⟩] : Store).Sublist [⟨5, false⟩, ⟨6, false⟩, ⟨7, true⟩]) :=
  ⟨by decide,
    C4_atomic_batches (some (1, Op.commit, "crash")) "ds" 1 0 9
      [⟨5, false⟩, ⟨6, false⟩, ⟨7, true⟩] (PyExc.storeError "crash") 1
      [⟨6, false⟩, ⟨7, true⟩]
      [Event.foundBatch 1, Event.deletedBatch 1 1, Event.foundBatch 1, Event.batchError]
      (by decide) (by decide)⟩

/-! ### Every batch reaching the deletion step has size between 1 and B -/

/-- All batch sizes recorded in a trace lie between 1 and `B`. -/
def TraceBound (B : Nat) (trace : List Event) : Prop :=
  ∀ e ∈ trace, ∀ n, batchSizeOf e = some n → 1 ≤ n ∧ n ≤ B

lemma traceBound_nil (B : Nat) : TraceBound B [] := by
  intro e he
  cases he

lemma traceBound_append (B : Nat) (tr1 tr2 : List Event)
    (h1 : TraceBound B tr1) (h2 : TraceBound B tr2) : TraceBound B (tr1 ++ tr2) := by
  intro e he
  rcases List.mem_append.mp he with h | h
  exacts [h1 e h, h2 e h]

lemma traceBound_singleton (B : Nat) (e : Event)
    (h : ∀ n, batchSizeOf e = some n → 1 ≤ n ∧ n ≤ B) : TraceBound B [e] := by
  intro e2 he2
  rw [List.mem_singleton.mp he2]
  exact h

lemma length_pos_of_isEmpty_false {α : Type} {l : List α} (h : l.isEmpty = false) :
    0 < l.length := by
  cases l with
  | nil => cases h
  | cons a l => simp

lemma loop_batch_bound (failAt : FailAt) (ds : String) (B : Nat) (dry : Bool) (sl : Nat) :
    ∀ (fuel : Nat) (sd : Bool) (store : Store) (total iter : Nat) (trace : List Event),
      TraceBound B trace →
      TraceBound B (loop failAt ds B dry sl fuel sd store total iter trace).trace := by
  intro fuel
  induction fuel with
  | zero => intro sd store total iter trace hb; exact hb
  | succ f ih =>
    intro sd store total iter trace hb
    cases sd with
    | false =>
      have hres : loop failAt ds B dry sl (f + 1) false store total iter trace
          = .ok total store trace := by
        simp [loop]
      rw [hres]
      exact hb
    | true =>
      cases hf : failOn failAt iter Op.fetch with
      | some msg =>
        have hres : loop failAt ds B dry sl (f + 1) true store total iter trace
            = .error (.storeError msg) total store (trace ++ [Event.batchError]) := by
          simp only [loop, hf, if_true]
        rw [hres]
        refine traceBound_append B _ _ hb (traceBound_singleton B _ ?_)
        intro n hn
        simp [batchSizeOf] at hn
      | none =>
        cases hrows : (selectBatch ds B store).isEmpty with
        | true =>
          have hres : loop failAt ds B dry sl (f + 1) true store total iter trace
              = .ok total store (trace ++ [Event.noMoreRows total]) := by
            simp only [loop, hf, hrows, if_true]
          rw [hres]
          refine traceBound_append B _ _ hb (traceBound_singleton B _ ?_)
          intro n hn
          simp [batchSizeOf] at hn
        | false =>
          have hlen1 : 1 ≤ (selectBatch ds B store).length :=
            length_pos_of_isEmpty_false hrows
          have hlen2 : (selectBatch ds B store).length ≤ B := by
            have := length_selectBatch ds B store
            omega
          have hfound : TraceBound B [Event.foundBatch (selectBatch ds B store).length] := by
            refine traceBound_singleton B _ ?_
            intro n hn
            simp [batchSizeOf] at hn
            omega
          cases dry with
          | true =>
            have hres : loop failAt ds B true sl (f + 1) true store total iter trace
                = loop failAt ds B true sl f true store
                    (total + (selectBatch ds B store).length) (iter + 1)
                    ((trace ++ [Event.foundBatch (selectBatch ds B store).length])
                      ++ [Event.dryRunBatch (selectBatch ds B store).length
                            (total + (selectBatch ds B store).length)]) := by
              simp only [loop, hf, hrows, Bool.not_true, if_true, Bool.false_eq_true,
                if_false]
            rw [hres]
            refine ih true store _ (iter + 1) _ ?_
            refine traceBound_append B _ _ (traceBound_append B _ _ hb hfound)
              (traceBound_singleton B _ ?_)
            intro n hn
            simp [batchSizeOf] at hn
            omega
          | false =>
            cases hd : failOn failAt iter Op.del with
            | some msg =>
              have hres : loop failAt ds B false sl (f + 1) true store total iter trace
                  = .error (.storeError msg) total store
                      ((trace ++ [Event.foundBatch (selectBatch ds B store).length])
                        ++ [Event.batchError]) := by
                simp only [loop, hf, hrows, hd, Bool.not_false, if_true,
                  Bool.false_eq_true, if_false]
              rw [hres]
              refine traceBound_append B _ _ (traceBound_append B _ _ hb hfound)
                (traceBound_singleton B _ ?_)
              intro n hn
              simp [batchSizeOf] at hn
            | none =>
              cases hc : failOn failAt iter Op.commit with
              | some msg =>
                have hres : loop failAt ds B false sl (f + 1) true store total iter trace
                    = .error (.storeError msg) total store
                        ((trace ++ [Event.foundBatch (selectBatch ds B store).length])
                          ++ [Event.batchError]) := by
                  simp only [loop, hf, hrows, hd, hc, Bool.not_false, if_true,
                    Bool.false_eq_true, if_false]
                rw [hres]
                refine traceBound_append B _ _ (traceBound_append B _ _ hb hfound)
                  (traceBound_singleton B _ ?_)
                intro n hn
                simp [batchSizeOf] at hn
              | none =>
                have hres : loop failAt ds B false sl (f + 1) true store total iter trace
                    = loop failAt ds B false sl f true
                        (deleteByIds store (selectBatch ds B store))
                        (total + (selectBatch ds B store).length) (iter + 1)
                        ((trace ++ [Event.foundBatch (selectBatch ds B store).length])
                          ++ [Event.deletedBatch (selectBatch ds B store).length
                                (total + (selectBatch ds B store).length)]) := by
                  simp only [loop, hf, hrows, hd, hc, Bool.not_false, if_true,
                    Bool.false_eq_true, if_false]
                rw [hres]
                refine ih true _ _ (iter + 1) _ ?_
                refine traceBound_append B _ _ (traceBound_append B _ _ hb hfound)
                  (traceBound_singleton B _ ?_)
                intro n hn
                simp [batchSizeOf] at hn
                omega

/-- C5: every batch handed to the delete statement has size at least 1 and
at most `batch_size`: an empty batch never reaches the deletion step (it
breaks the loop instead) and the selection query bounds each batch by
`batch_size`, so every batch size recorded in the run's progress trace —
in particular every `deletedBatch` line — lies between 1 and `batch_size`. -/
theorem C5_batch_bound (failAt : FailAt) (ds : String) (B : Nat) (dry : Bool)
    (sl fuel : Nat) (store : Store) (n t : Nat)
    (h : Event.deletedBatch n t ∈ (delete_in_batches failAt ds B dry sl fuel store).trace) :
    1 ≤ n ∧ n ≤ B :=
  loop_batch_bound failAt ds B dry sl fuel true store 0 0 [] (traceBound_nil B)
    (Event.deletedBatch n t) h n rfl

theorem C5_batch_bound_witness :
    (Event.deletedBatch 2 2
        ∈ (delete_in_batches none "ds" 2 false 0 3
            [⟨1, false⟩, ⟨2, false⟩, ⟨3, false⟩]).trace) ∧
    (1 ≤ 2 ∧ 2 ≤ 2) :=
  ⟨by decide,
    C5_batch_bound none "ds" 2 false 0 3 [⟨1, false⟩, ⟨2, false⟩, ⟨3, false⟩] 2 2
      (by decide)⟩

/-! ### What a failing run surfaces -/

/-- The running tally is either still zero or was reported by some progress
line already printed. -/
def TallyReported (total : Nat) (trace : List Event) : Prop :=
  total = 0 ∨ ∃ e ∈ trace, reportsTally total e = true

lemma tallyReported_append (total : Nat) (tr1 tr2 : List Event)
    (h : TallyReported total tr1) : TallyReported total (tr1 ++ tr2) := by
  rcases h with h | ⟨e, he, hr⟩
  · exact Or.inl h
  · exact Or.inr ⟨e, List.mem_append_left tr2 he, hr⟩

lemma loop_error_surface (failAt : FailAt) (ds : String) (B : Nat) (dry : Bool)
    (sl : Nat) :
    ∀ (fuel : Nat) (sd : Bool) (store : Store) (total iter : Nat) (trace : List Event),
      TallyReported total trace →
      ∀ exc T st tr,
        loop failAt ds B dry sl fuel sd store total iter trace = .error exc T st tr →
        (∃ msg, exc = PyExc.storeError msg) ∧
        tr.getLast? = some Event.batchError ∧
        TallyReported T tr := by
  intro fuel
  induction fuel with
  | zero =>
    intro sd store total iter trace _ exc T st tr h
    cases h
  | succ f ih =>
    intro sd store total iter trace hrep exc T st tr h
    cases sd with
    | false =>
      have hres : loop failAt ds B dry sl (f + 1) false store total iter trace
          = .ok total store trace := by
        simp [loop]
      rw [hres] at h
      cases h
    | true =>
      cases hf : failOn failAt iter Op.fetch with
      | some msg =>
        have hres : loop failAt ds B dry sl (f + 1) true store total iter trace
            = .error (.storeError msg) total store (trace ++ [Event.batchError]) := by
          simp only [loop, hf, if_true]
        rw [hres] at h
        injection h with h1 h2 h3 h4
        subst h1; subst h2; subst h4
        exact ⟨⟨msg, rfl⟩, List.getLast?_concat trace,
          tallyReported_append total trace [Event.batchError] hrep⟩
      | none =>
        cases hrows : (selectBatch ds B store).isEmpty with
        | true =>
          have hres : loop failAt ds B dry sl (f + 1) true store total iter trace
              = .ok total store (trace ++ [Event.noMoreRows total]) := by
            simp only [loop, hf, hrows, if_true]
          rw [hres] at h
          cases h
        | false =>
          cases dry with
          | true =>
            have hres : loop failAt ds B true sl (f + 1) true store total iter trace
                = loop failAt ds B true sl f true store
                    (total + (selectBatch ds B store).length) (iter + 1)
                    ((trace ++ [Event.foundBatch (selectBatch ds B store).length])
                      ++ [Event.dryRunBatch (selectBatch ds B store).length
                            (total + (selectBatch ds B store).length)]) := by
              simp only [loop, hf, hrows, Bool.not_true, if_true, Bool.false_eq_true,
                if_false]
            rw [hres] at h
            refine ih true store _ (iter + 1) _ ?_ exc T st tr h
            refine Or.inr ⟨Event.dryRunBatch (selectBatch ds B store).length
              (total + (selectBatch ds B store).length), ?_, ?_⟩
            · exact List.mem_append_right _ (List.mem_singleton.mpr rfl)
            · simp [reportsTally]
          | false =>
            cases hd : failOn failAt iter Op.del with
            | some msg =>
              have hres : loop failAt ds B false sl (f + 1) true store total iter trace
                  = .error (.storeError msg) total store
                      ((trace ++ [Event.foundBatch (selectBatch ds B store).length])
                        ++ [Event.batchError]) := by
                simp only [loop, hf, hrows, hd, Bool.not_false, if_true,
                  Bool.false_eq_true, if_false]
              rw [hres] at h
              injection h with h1 h2 h3 h4
              subst h1; subst h2; subst h4
              refine ⟨⟨msg, rfl⟩, List.getLast?_concat _, ?_⟩
              exact tallyReported_append total _ [Event.batchError]
                (tallyReported_append total trace _ hrep)
            | none =>
              cases hc : failOn failAt iter Op.commit with
              | some msg =>
                have hres : loop failAt ds B false sl (f + 1) true store total iter trace
                    = .error (.storeError msg) total store
                        ((trace ++ [Event.foundBatch (selectBatch ds B store).length])
                          ++ [Event.batchError]) := by
                  simp only [loop, hf, hrows, hd, hc, Bool.not_false, if_true,
                    Bool.false_eq_true, if_false]
                rw [hres] at h
                injection h with h1 h2 h3 h4
                subst h1; subst h2; subst h4
                refine ⟨⟨msg, rfl⟩, List.getLast?_concat _, ?_⟩
                exact tallyReported_append total _ [Event.batchError]
                  (tallyReported_append total trace _ hrep)
              | none =>
                have hres : loop failAt ds B false sl (f + 1) true store total iter trace
                    = loop failAt ds B false sl f true
                        (deleteByIds store (selectBatch ds B store))
                        (total + (selectBatch ds B store).length) (iter + 1)
                        ((trace ++ [Event.foundBatch (selectBatch ds B store).length])
                          ++ [Event.deletedBatch (selectBatch ds B store).length
                                (total + (selectBatch ds B store).length)]) := by
                  simp only [loop, hf, hrows, hd, hc, Bool.not_false, if_true,
                    Bool.false_eq_true, if_false]
                rw [hres] at h
                refine ih true _ _ (iter + 1) _ ?_ exc T st tr h
                refine Or.inr ⟨Event.deletedBatch (selectBatch ds B store).length
                  (total + (selectBatch ds B store).length), ?_, ?_⟩
                · exact List.mem_append_right _ (List.mem_singleton.mpr rfl)
                · simp [reportsTally]

/-- C3 counterexample: the claim says a failing batch operation is surfaced
as a `DeletionError` wrapping the underlying store error.  No `DeletionError`
exists in the code: on a concrete run whose first fetch raises a store error,
the exception surfaced to the caller is the underlying store error itself,
which is not a `DeletionError` wrapping it. -/
theorem C3_no_deletion_error_wrapper :
    (delete_in_batches (some (0, Op.fetch, "connection reset")) "ds" 10 false 0 5
        [⟨1, false⟩]).exc = some (PyExc.storeError "connection reset") ∧
    some (PyExc.storeError "connection reset")
      ≠ some (PyExc.deletionError (PyExc.storeError "connection reset")) := by
  exact ⟨rfl, by decide⟩

/-- C3 (amended): when a batch operation (fetch, delete or commit) fails, the
underlying store error itself is re-raised to the caller unchanged — the code
has no `DeletionError` wrapper — and the tally accumulated up to the last
successful batch is reported before the error: the error line is the last
line printed, and the surfaced tally is zero or was reported by a progress
line already in the trace. -/
theorem C3_error_surfaces_underlying (failAt : FailAt) (ds : String) (B : Nat)
    (dry : Bool) (sl fuel : Nat) (store : Store) (exc : PyExc) (T : Nat)
    (st : Store) (tr : List Event)
    (h : delete_in_batches failAt ds B dry sl fuel store = .error exc T st tr) :
    (∃ msg, exc = PyExc.storeError msg) ∧
    tr.getLast? = some Event.batchError ∧
    TallyReported T tr :=
  loop_error_surface failAt ds B dry sl fuel true store 0 0 [] (Or.inl rfl)
    exc T st tr h

theorem C3_error_surfaces_underlying_witness :
    (∃ msg, PyExc.storeError "boom" = PyExc.storeError msg) ∧
    ([Event.foundBatch 1, Event.deletedBatch 1 1, Event.foundBatch 1,
        Event.batchError] : List Event).getLast? = some Event.batchError ∧
    TallyReported 1 [Event.foundBatch 1, Event.deletedBatch 1 1, Event.foundBatch 1,
        Event.batchError] :=
  C3_error_surfaces_underlying (some (1, Op.del, "boom")) "ds" 1 false 0 5
    [⟨1, false⟩, ⟨2, false⟩] (PyExc.storeError "boom") 1 [⟨2, false⟩]
    [Event.foundBatch 1, Event.deletedBatch 1 1, Event.foundBatch 1, Event.batchError]
    (by decide)

/-- C9: the loop governed by the `ShouldDelete` flag is behaviourally
equivalent to the plain loop whose sole exit is the empty-batch break: the
flag is initialized true and unconditionally reset to true every iteration,
so in every execution — any failure schedule, batch size, dry-run setting,
store and fuel — it never causes the loop to exit, and the flagged loop
started with `ShouldDelete = true` computes exactly what the flagless loop
does. -/
theorem C9_flag_is_dead_logic (failAt : FailAt) (ds : String) (B : Nat)
    (dry : Bool) (sl : Nat) :
    ∀ (fuel : Nat) (store : Store) (total iter : Nat) (trace : List Event),
      loop failAt ds B dry sl fuel true store total iter trace
        = plainLoop failAt ds B dry sl fuel store total iter trace := by
  intro fuel
  induction fuel with
  | zero => intro store total iter trace; rfl
  | succ f ih =>
    intro store total iter trace
    cases hf : failOn failAt iter Op.fetch with
    | some msg =>
      simp only [loop, plainLoop, hf, if_true]
    | none =>
      cases hrows : (selectBatch ds B store).isEmpty with
      | true =>
        simp only [loop, plainLoop, hf, hrows, if_true]
      | false =>
        cases dry with
        | true =>
          simp only [loop, plainLoop, hf, hrows, Bool.not_true, if_true,
            Bool.false_eq_true, if_false]
          exact ih store _ (iter + 1) _
        | false =>
          cases hd : failOn failAt iter Op.del with
          | some msg =>
            simp only [loop, plainLoop, hf, hrows, hd, Bool.not_false, if_true,
              Bool.false_eq_true, if_false]
          | none =>
            cases hc : failOn failAt iter Op.commit with
            | some msg =>
              simp only [loop, plainLoop, hf, hrows, hd, hc, Bool.not_false, if_true,
                Bool.false_eq_true, if_false]
            | none =>
              simp only [loop, plainLoop, hf, hrows, hd, hc, Bool.not_false, if_true,
                Bool.false_eq_true, if_false]
              exact ih _ _ (iter + 1) _

/-! ### The datasource argument does not constrain selection or deletion -/

lemma loop_datasource_irrelevant (failAt : FailAt) (ds ds2 : String) (B : Nat)
    (dry : Bool) (sl : Nat) :
    ∀ (fuel : Nat) (sd : Bool) (store : Store) (total iter : Nat) (trace : List Event),
      loop failAt ds B dry sl fuel sd store total iter trace
        = loop failAt ds2 B dry sl fuel sd store total iter trace := by
  have hsel : selectBatch ds2 = selectBatch ds := rfl
  intro fuel
  induction fuel with
  | zero => intro sd store total iter trace; rfl
  | succ f ih =>
    intro sd store total iter trace
    cases sd with
    | false => simp [loop]
    | true =>
      cases hf : failOn failAt iter Op.fetch with
      | some msg => simp only [loop, hf, if_true]
      | none =>
        cases hrows : (selectBatch ds B store).isEmpty with
        | true =>
          simp only [loop, hf, hrows, hsel, if_true]
        | false =>
          cases dry with
          | true =>
            simp only [loop, hf, hrows, hsel, Bool.not_true, if_true,
              Bool.false_eq_true, if_false]
            exact ih true store _ (iter + 1) _
          | false =>
            cases hd : failOn failAt iter Op.del with
            | some msg =>
              simp only [loop, hf, hrows, hd, hsel, Bool.not_false, if_true,
                Bool.false_eq_true, if_false]
            | none =>
              cases hc : failOn failAt iter Op.commit with
              | some msg =>
                simp only [loop, hf, hrows, hd, hc, hsel, Bool.not_false, if_true,
                  Bool.false_eq_true, if_false]
              | none =>
                simp only [loop, hf, hrows, hd, hc, hsel, Bool.not_false, if_true,
                  Bool.false_eq_true, if_false]
                exact ih true _ _ (iter + 1) _

/-- C8: the selection step treats a row as a deletion candidate if and only
if its `used` flag is false — with distinct primary keys and the limit large
enough to cover the whole table, a row's id is selected exactly when
`used = false` — and the configured datasource filter value constrains
nothing: every run of `delete_in_batches` yields the same result whatever
the datasource value is. -/
theorem C8_predicate_only_used (ds : String) (B : Nat) (store : Store) (r : Row)
    (hr : r ∈ store) (hnd : (store.map Row.id).Nodup) :
    (r.id ∈ selectBatch ds store.length store ↔ r.used = false) ∧
    (∀ (ds2 : String) (failAt : FailAt) (dry : Bool) (sl fuel : Nat),
      delete_in_batches failAt ds B dry sl fuel store
        = delete_in_batches failAt ds2 B dry sl fuel store) := by
  constructor
  · constructor
    · intro h
      have h2 : r.id ∈ (store.filter eligible).map Row.id :=
        (List.take_sublist store.length _).subset h
      obtain ⟨r2, hr2, hid⟩ := List.mem_map.mp h2
      obtain ⟨hr2s, helig⟩ := List.mem_filter.mp hr2
      have heq : r2 = r := List.inj_on_of_nodup_map hnd hr2s hr hid
      rw [heq] at helig
      simpa [eligible] using helig
    · intro hu
      have helig : eligible r = true := by simp [eligible, hu]
      have hmem : r.id ∈ (store.filter eligible).map Row.id :=
        List.mem_map_of_mem Row.id (List.mem_filter.mpr ⟨hr, helig⟩)
      have hlen : ((store.filter eligible).map Row.id).length ≤ store.length := by
        rw [List.length_map]
        exact List.length_filter_le eligible store
      rw [selectBatch, List.take_of_length_le hlen]
      exact hmem
  · intro ds2 failAt dry sl fuel
    exact loop_datasource_irrelevant failAt ds ds2 B dry sl fuel true store 0 0 []

theorem C8_predicate_only_used_witness :
    ((3 ∈ selectBatch "ds" 2 [⟨3, false⟩, ⟨4, true⟩] ↔ false = false) ∧
      (∀ (ds2 : String) (failAt : FailAt) (dry : Bool) (sl fuel : Nat),
        delete_in_batches failAt "ds" 7 dry sl fuel [⟨3, false⟩, ⟨4, true⟩]
          = delete_in_batches failAt ds2 7 dry sl fuel [⟨3, false⟩, ⟨4, true⟩])) :=
  C8_predicate_only_used "ds" 7 [⟨3, false⟩, ⟨4, true⟩] ⟨3, false⟩
    (by decide) (by decide)

end DruidDelete
